import Mathlib

/-
Shallow embedding of the calendar analysis engine of this repository
(src/calendar_analyzer.py, class CalendarAnalyzer) together with the
configuration fields it reads (src/config.py).  Durations and timestamps
are counted in integer microseconds, the resolution of Python timedelta
and datetime values.  Python dictionaries that are built up by insertion
(collections.defaultdict) are modelled as association lists that preserve
first-insertion order; Python datetime objects are modelled by the record
of the projections the analyzer actually reads (absolute timestamp, local
hour, and the three strftime renderings it uses).
-/

set_option maxHeartbeats 1000000

namespace CalendarAnalyzer

/-- Microseconds in one hour (Python timedelta(hours=1)). -/
def hourUs : Int := 3600000000

/-- Microseconds in one day. -/
def dayUs : Int := 86400000000

/-- Abstraction of a parsed (timezone-aware) Python datetime: the analyzer
reads only the absolute instant `ts` (microseconds, used for subtraction),
the local `hour`, and three strftime renderings: weekday name (the format
string %A), the long day label (the format string used by the upcoming-week
summarizer), and the HH:MM time label. -/
structure PyDatetime where
  ts : Int
  hour : Nat
  dayName : String
  dayLabel : String
  timeLabel : String
deriving DecidableEq

/-- Abstraction of a parsed all-day date (datetime.strptime of a date string):
midnight in the configured analysis timezone. -/
structure PyDate where
  ts : Int
  dayName : String
  dayLabel : String
deriving DecidableEq

/-- The time payload of a raw Google Calendar event field: either a
timed record (key dateTime present; `none` models an unparseable string),
an all-day record (key date present; `none` models an unparseable string),
or a record with neither key. -/
inductive TimeField where
  | dateTime : Option PyDatetime → TimeField
  | dateOnly : Option PyDate → TimeField
  | neither : TimeField
deriving DecidableEq

/-- A raw calendar event, restricted to the dictionary fields the analyzer
reads.  `none` models an absent dictionary key (the code reads the optional
fields with dict.get and a default, and the time fields with a plain
subscript that may raise KeyError). -/
structure RawEvent where
  summary : Option String
  description : Option String
  attendees : List String
  status : Option String
  visibility : Option String
  start : Option TimeField
  end_ : Option TimeField
deriving DecidableEq

/-- The configuration fields consumed by the analyzer (src/config.py plus
the ordered category-name to keyword-list mapping the categorizer reads). -/
structure Config where
  include_private_events : Bool
  working_hours_start : Nat
  working_hours_end : Nat
  meeting_keywords : List (String × List String)
  max_upcoming_events : Nat
deriving DecidableEq

/-- CalendarAnalyzer._parse_event_time: use the dateTime field when present,
fall back to the all-day date at local midnight, and raise (here: `none`)
when neither is present or the value does not parse. -/
def parse_event_time : TimeField → Option PyDatetime
  | TimeField.dateTime v => v
  | TimeField.dateOnly none => none
  | TimeField.dateOnly (some d) =>
      some { ts := d.ts, hour := 0, dayName := d.dayName,
             dayLabel := d.dayLabel, timeLabel := "00:00" }
  | TimeField.neither => none

/-- Character-list helper: the needle matches at the head of the haystack. -/
def substrAt : List Char → List Char → Bool
  | [], _ => true
  | _ :: _, [] => false
  | a :: as, b :: bs => a == b && substrAt as bs

/-- Character-list helper: the needle occurs somewhere in the haystack. -/
def hasSubstr : List Char → List Char → Bool
  | [], needle => needle.isEmpty
  | b :: bs, needle => substrAt needle (b :: bs) || hasSubstr bs needle

/-- The Python substring test (keyword in text). -/
def containsSubstr (hay needle : String) : Bool :=
  hasSubstr hay.toList needle.toList

/-- The haystack built by CalendarAnalyzer._categorize_event: the lower-cased
title and the lower-cased description joined by one space. -/
def text_to_analyze (event : RawEvent) : String :=
  (event.summary.getD "").toLower ++ " " ++ (event.description.getD "").toLower

/-- The keyword loop of _categorize_event: scan the configured categories in
declared order and return the first whose keyword list has a substring
match in the haystack. -/
def find_keyword_category (text : String) : List (String × List String) → Option String
  | [] => none
  | (category, keywords) :: rest =>
      if keywords.any (fun keyword => containsSubstr text keyword) then some category
      else find_keyword_category text rest

/-- CalendarAnalyzer._categorize_event. -/
def categorize_event (cfg : Config) (event : RawEvent) : String :=
  match find_keyword_category (text_to_analyze event) cfg.meeting_keywords with
  | some category => category
  | none =>
      let attendees := event.attendees
      if attendees.length > 10 then "large_meeting"
      else if attendees.length > 3 then "team_meeting"
      else if attendees.length = 2 then "small_meeting"
      else "other"

/-- CalendarAnalyzer._calculate_duration: end minus start in microseconds;
any exception (missing start or end key, unparseable time) is caught and
yields timedelta(0).  A negative difference is returned as-is. -/
def calculate_duration (event : RawEvent) : Int :=
  match event.start, event.end_ with
  | some s, some e =>
      match parse_event_time s, parse_event_time e with
      | some st, some et => et.ts - st.ts
      | _, _ => 0
  | _, _ => 0

/-- CalendarAnalyzer._is_working_hours. -/
def is_working_hours (cfg : Config) (event_start : PyDatetime) : Bool :=
  decide (cfg.working_hours_start ≤ event_start.hour ∧
          event_start.hour < cfg.working_hours_end)

/-- Order-preserving update of an association list with defaultdict
semantics: apply `f` to the stored value, or to the default `d` (appending
the key at the end, first-insertion order) when the key is absent. -/
def upsert {κ ν : Type} [DecidableEq κ] (k : κ) (d : ν) (f : ν → ν) :
    List (κ × ν) → List (κ × ν)
  | [] => [(k, f d)]
  | p :: rest => if p.1 = k then (k, f p.2) :: rest else p :: upsert k d f rest

/-- One per-weekday entry of daily_stats. -/
structure DayStat where
  events : Nat
  meeting_time : Int
  categories : List (String × Nat)
deriving DecidableEq

/-- The defaultdict default for daily_stats. -/
def dayStatDefault : DayStat := { events := 0, meeting_time := 0, categories := [] }

/-- One per-category entry of category_stats. -/
structure CatStat where
  count : Nat
  total_time : Int
deriving DecidableEq

/-- The defaultdict default for category_stats. -/
def catStatDefault : CatStat := { count := 0, total_time := 0 }

/-- The mutable aggregation state of the analyze_week event loop. -/
structure AnalyzeState where
  daily_stats : List (String × DayStat)
  category_stats : List (String × CatStat)
  hourly_distribution : List (Nat × Nat)
  total_meeting_time : Int
  working_hours_time : Int
  after_hours_time : Int
deriving DecidableEq

/-- The initial aggregation state of the analyze_week event loop. -/
def analyze_init : AnalyzeState :=
  { daily_stats := [], category_stats := [], hourly_distribution := [],
    total_meeting_time := 0, working_hours_time := 0, after_hours_time := 0 }

/-- One iteration of the analyze_week event loop: skip cancelled events,
skip private events when their inclusion is disabled, skip (via the caught
per-event exception) events whose start is missing or unparseable, and
otherwise fold the event into every aggregate. -/
def process_event (cfg : Config) (st : AnalyzeState) (event : RawEvent) : AnalyzeState :=
  if event.status = some "cancelled" then st
  else if cfg.include_private_events = false ∧ event.visibility = some "private" then st
  else
    match event.start with
    | none => st
    | some tf =>
      match parse_event_time tf with
      | none => st
      | some start_time =>
        let duration := calculate_duration event
        let category := categorize_event cfg event
        let day_key := start_time.dayName
        { daily_stats :=
            upsert day_key dayStatDefault (fun s =>
              { events := s.events + 1,
                meeting_time := s.meeting_time + duration,
                categories := upsert category 0 (fun n => n + 1) s.categories })
              st.daily_stats,
          category_stats :=
            upsert category catStatDefault (fun s =>
              { count := s.count + 1, total_time := s.total_time + duration })
              st.category_stats,
          hourly_distribution :=
            upsert start_time.hour 0 (fun n => n + 1) st.hourly_distribution,
          total_meeting_time := st.total_meeting_time + duration,
          working_hours_time :=
            if is_working_hours cfg start_time then st.working_hours_time + duration
            else st.working_hours_time,
          after_hours_time :=
            if is_working_hours cfg start_time then st.after_hours_time
            else st.after_hours_time + duration }

/-- Python max(items, key=f) over a non-empty list keeps the first element
whose key is maximal; on an empty list the source guards with an emptiness
test, modelled here by `none`. -/
def max_by_nat {α : Type} (f : α → Nat) : List α → Option α
  | [] => none
  | x :: xs => some (xs.foldl (fun best a => if f best < f a then a else best) x)

/-- Python min(items, key=f), keeping the first element whose key is minimal. -/
def min_by_nat {α : Type} (f : α → Nat) : List α → Option α
  | [] => none
  | x :: xs => some (xs.foldl (fun best a => if f a < f best then a else best) x)

/-- The five insight notes of _generate_insights, one constructor per
format string of the source, carrying the interpolated data.  The
after-hours note carries the exact percentage (the source renders it with
one decimal place). -/
inductive Insight where
  | heavyWeek : Insight
  | lightWeek : Insight
  | afterHoursNote : Rat → Insight
  | topCategory : String → Nat → Insight
  | busiestDayNote : String → Nat → Insight
  | peakHour : Nat → Nat → Insight
deriving DecidableEq

/-- CalendarAnalyzer._generate_insights, with each conditional append of the
source kept in source order. -/
def generate_insights (total_events : Nat) (daily_stats : List (String × DayStat))
    (category_stats : List (String × CatStat))
    (working_hours_time after_hours_time : Int)
    (hourly_distribution : List (Nat × Nat)) : List Insight :=
  let insights : List Insight := []
  let insights :=
    if total_events > 25 then insights ++ [Insight.heavyWeek]
    else if total_events < 5 then insights ++ [Insight.lightWeek]
    else insights
  let total_time := working_hours_time + after_hours_time
  let insights :=
    if total_time > 0 then
      let after_hours_percentage : Rat :=
        (after_hours_time : Rat) / (total_time : Rat) * 100
      if after_hours_percentage > 20 then
        insights ++ [Insight.afterHoursNote after_hours_percentage]
      else insights
    else insights
  let insights :=
    match max_by_nat (fun x => x.2.count) category_stats with
    | some top_category =>
        insights ++ [Insight.topCategory top_category.1 top_category.2.count]
    | none => insights
  let insights :=
    match max_by_nat (fun x => x.2.events) daily_stats with
    | some busiest_day =>
        if busiest_day.2.events > 6 then
          insights ++ [Insight.busiestDayNote busiest_day.1 busiest_day.2.events]
        else insights
    | none => insights
  let insights :=
    match max_by_nat (fun x => x.2) hourly_distribution with
    | some peak_hour => insights ++ [Insight.peakHour peak_hour.1 peak_hour.2]
    | none => insights
  insights

/-- The patterns dictionary of _identify_patterns; a `none` field models an
absent dictionary key. -/
structure Patterns where
  busiest_day : Option (String × Nat)
  lightest_day : Option (String × Nat)
  dominant_meeting_type : Option String
deriving DecidableEq

/-- CalendarAnalyzer._identify_patterns. -/
def identify_patterns (daily_stats : List (String × DayStat))
    (category_stats : List (String × CatStat)) : Patterns :=
  let day_counts := daily_stats.map (fun p => (p.1, p.2.events))
  { busiest_day := max_by_nat (fun x => x.2) day_counts,
    lightest_day := min_by_nat (fun x => x.2) day_counts,
    dominant_meeting_type :=
      (max_by_nat (fun x => x.2.count) category_stats).map (fun x => x.1) }

/-- The dictionary returned by analyze_week.  A `none` field models a key
that the returned dictionary does not contain (the empty-input branch of the
source returns a different key set from the main branch); `time_usage` is
the key that only the empty-input branch emits, always with an empty value. -/
structure AnalysisResult where
  period : Option String
  total_events : Nat
  total_meeting_time : Int
  working_hours_time : Option Int
  after_hours_time : Option Int
  daily_breakdown : List (String × DayStat)
  category_breakdown : List (String × CatStat)
  hourly_distribution : Option (List (Nat × Nat))
  time_usage : Option Unit
  patterns : Patterns
  insights : List Insight
deriving DecidableEq

/-- CalendarAnalyzer.analyze_week. -/
def analyze_week (cfg : Config) (events : List RawEvent)
    (start_date end_date : String) : AnalysisResult :=
  if events = [] then
    { period := none,
      total_events := 0,
      total_meeting_time := 0,
      working_hours_time := none,
      after_hours_time := none,
      daily_breakdown := [],
      category_breakdown := [],
      hourly_distribution := none,
      time_usage := some (),
      patterns := { busiest_day := none, lightest_day := none,
                    dominant_meeting_type := none },
      insights := [] }
  else
    let st := events.foldl (process_event cfg) analyze_init
    { period := some (start_date ++ " to " ++ end_date),
      total_events := events.length,
      total_meeting_time := st.total_meeting_time,
      working_hours_time := some st.working_hours_time,
      after_hours_time := some st.after_hours_time,
      daily_breakdown := st.daily_stats,
      category_breakdown := st.category_stats,
      hourly_distribution := some st.hourly_distribution,
      time_usage := none,
      patterns := identify_patterns st.daily_stats st.category_stats,
      insights := generate_insights events.length st.daily_stats st.category_stats
        st.working_hours_time st.after_hours_time st.hourly_distribution }

/-- Two-digit zero padding, as in the minute and second fields of Python
str(timedelta). -/
def pad2 (n : Nat) : String := if n < 10 then "0" ++ toString n else toString n

/-- The string the source stores in an agenda entry: str(timedelta) with the
microsecond part removed by split on the dot, i.e. an optional signed day
count followed by H:MM:SS. -/
def formatTimedelta (us : Int) : String :=
  let days : Int := us.fdiv dayUs
  let rem : Nat := (us.fmod dayUs).toNat
  let secs := rem / 1000000
  let hh := secs / 3600
  let mm := secs % 3600 / 60
  let ss := secs % 60
  let base := toString hh ++ ":" ++ pad2 mm ++ ":" ++ pad2 ss
  if days = 0 then base
  else toString days ++ (if days = 1 ∨ days = -1 then " day, " else " days, ") ++ base

/-- One agenda entry of the upcoming-week daily schedule.  The duration
field is the formatted string the source stores there. -/
structure EventInfo where
  title : String
  time : String
  duration : String
  attendees_count : Nat
deriving DecidableEq

/-- The agenda entry built for one upcoming event with parsed start time. -/
def event_info_of (event : RawEvent) (start_time : PyDatetime) : EventInfo :=
  { title := event.summary.getD "No title",
    time := start_time.timeLabel,
    duration := formatTimedelta (calculate_duration event),
    attendees_count := event.attendees.length }

/-- One flagged key meeting of the upcoming-week summary. -/
structure KeyMeeting where
  title : String
  day : String
  time : String
  reason : String
deriving DecidableEq

/-- The mutable state of the summarize_upcoming_week event loop. -/
structure UpState where
  daily_schedule : List (String × List EventInfo)
  key_meetings : List KeyMeeting
deriving DecidableEq

/-- One iteration of the summarize_upcoming_week event loop: skip cancelled
events and events whose start is missing or unparseable, append the agenda
entry to the day bucket, and flag a key meeting when the duration exceeds
one hour or more than five attendees are listed. -/
def process_upcoming (st : UpState) (event : RawEvent) : UpState :=
  if event.status = some "cancelled" then st
  else
    match event.start with
    | none => st
    | some tf =>
      match parse_event_time tf with
      | none => st
      | some start_time =>
        let duration := calculate_duration event
        let day_key := start_time.dayLabel
        let sched :=
          upsert day_key [] (fun l => l ++ [event_info_of event start_time])
            st.daily_schedule
        let st1 : UpState := { st with daily_schedule := sched }
        if duration > hourUs ∨ event.attendees.length > 5 then
          { st1 with key_meetings :=
              st1.key_meetings ++
                [{ title := event.summary.getD "No title",
                   day := day_key,
                   time := start_time.timeLabel,
                   reason := if duration > hourUs then "Long duration"
                             else "Many attendees" }] }
        else st1

/-- The dictionary returned by summarize_upcoming_week; `none` again models
a key absent from the empty-input branch. -/
structure UpcomingSummary where
  period : Option String
  total_events : Nat
  daily_schedule : List (String × List EventInfo)
  key_meetings : List KeyMeeting
  focus_opportunities : List String
deriving DecidableEq

/-- CalendarAnalyzer.summarize_upcoming_week. -/
def summarize_upcoming_week (cfg : Config) (events : List RawEvent)
    (start_date end_date : String) : UpcomingSummary :=
  if events = [] then
    { period := none, total_events := 0, daily_schedule := [],
      key_meetings := [], focus_opportunities := [] }
  else
    let st := events.foldl process_upcoming { daily_schedule := [], key_meetings := [] }
    let focus_opportunities :=
      (st.daily_schedule.filter (fun p => p.2.length ≤ 2)).map (fun p =>
        p.1 ++ " - Good for focus work (" ++ toString p.2.length ++ " meetings)")
    { period := some (start_date ++ " to " ++ end_date),
      total_events := events.length,
      daily_schedule := st.daily_schedule,
      key_meetings := st.key_meetings.take cfg.max_upcoming_events,
      focus_opportunities := focus_opportunities }

/-!
Specification-side definitions: restatements of individual rules in the
words of the specification, to be compared with the source embedding above.
-/

/-- The categorizer as the specification words it: find the first configured
category (declared order) whose keyword set has a substring match in the
lower-cased haystack, and otherwise apply the attendee-count fallback
thresholds in the fixed order greater-than-10, greater-than-3, equal-to-2,
otherwise other. -/
def categorizeSpec (cfg : Config) (event : RawEvent) : String :=
  let haystack := text_to_analyze event
  match cfg.meeting_keywords.find?
      (fun rule => rule.2.any (fun keyword => containsSubstr haystack keyword)) with
  | some rule => rule.1
  | none =>
      if event.attendees.length > 10 then "large_meeting"
      else if event.attendees.length > 3 then "team_meeting"
      else if event.attendees.length = 2 then "small_meeting"
      else "other"

/-- Insight check 1 of the specification: heavy-week note when total events
exceed 25, else light-week note when below 5, nothing in between. -/
def insightLoadBlock (total_events : Nat) : List Insight :=
  if total_events > 25 then [Insight.heavyWeek]
  else if total_events < 5 then [Insight.lightWeek]
  else []

/-- Insight check 2 of the specification: when total time is positive and
the after-hours share exceeds 20 percent, a note carrying that percentage. -/
def insightBalanceBlock (working_hours_time after_hours_time : Int) : List Insight :=
  let total_time := working_hours_time + after_hours_time
  if total_time > 0 ∧ (after_hours_time : Rat) / (total_time : Rat) * 100 > 20 then
    [Insight.afterHoursNote ((after_hours_time : Rat) / (total_time : Rat) * 100)]
  else []

/-- Insight check 3 of the specification: the dominant category and its
count whenever any category exists (first maximum wins). -/
def insightCategoryBlock (category_stats : List (String × CatStat)) : List Insight :=
  match max_by_nat (fun x => x.2.count) category_stats with
  | some top => [Insight.topCategory top.1 top.2.count]
  | none => []

/-- Insight check 4 of the specification: the busiest day when any day
exists and its event count exceeds 6 (first maximum wins). -/
def insightDayBlock (daily_stats : List (String × DayStat)) : List Insight :=
  match max_by_nat (fun x => x.2.events) daily_stats with
  | some busiest => if busiest.2.events > 6 then
      [Insight.busiestDayNote busiest.1 busiest.2.events] else []
  | none => []

/-- Insight check 5 of the specification: the peak hour and its count
whenever any hour bucket exists (first-seen maximum wins). -/
def insightHourBlock (hourly_distribution : List (Nat × Nat)) : List Insight :=
  match max_by_nat (fun x => x.2) hourly_distribution with
  | some peak => [Insight.peakHour peak.1 peak.2]
  | none => []

/-- Duration as the specification (amended) words it: end minus start when
both times resolve, zero when either is missing or unparseable. -/
def durationSpec (event : RawEvent) : Int :=
  match event.start.bind parse_event_time, event.end_.bind parse_event_time with
  | some st, some et => et.ts - st.ts
  | _, _ => 0

/-- Per-event key-meeting rule of the specification: a non-cancelled event
with a resolvable start is flagged exactly when its duration exceeds one
hour or more than five attendees are listed; the reason is Long duration
whenever the duration condition holds, else Many attendees. -/
def keyMeetingOf (event : RawEvent) : Option KeyMeeting :=
  if event.status = some "cancelled" then none
  else
    match event.start with
    | none => none
    | some tf =>
      match parse_event_time tf with
      | none => none
      | some start_time =>
        let duration := calculate_duration event
        if duration > hourUs ∨ event.attendees.length > 5 then
          some { title := event.summary.getD "No title",
                 day := start_time.dayLabel,
                 time := start_time.timeLabel,
                 reason := if duration > hourUs then "Long duration"
                           else "Many attendees" }
        else none

/-!
Concrete values used by witnesses and counterexamples.
-/

/-- A configuration with the default working hours 9 to 17, no keyword
rules, private events excluded, and at most 10 key meetings. -/
def cfgD : Config :=
  { include_private_events := false, working_hours_start := 9,
    working_hours_end := 17, meeting_keywords := [], max_upcoming_events := 10 }

/-- Monday 09:00, the epoch of the examples. -/
def dtA : PyDatetime :=
  { ts := 0, hour := 9, dayName := "Monday",
    dayLabel := "Monday, January 01", timeLabel := "09:00" }

/-- Monday 10:00, one hour after dtA. -/
def dtB : PyDatetime :=
  { ts := 3600000000, hour := 10, dayName := "Monday",
    dayLabel := "Monday, January 01", timeLabel := "10:00" }

/-- Monday 10:30, ninety minutes after dtA. -/
def dtC : PyDatetime :=
  { ts := 5400000000, hour := 10, dayName := "Monday",
    dayLabel := "Monday, January 01", timeLabel := "10:30" }

/-- A plain one-hour meeting at 09:00 with two attendees. -/
def evA : RawEvent :=
  { summary := some "Team Sync", description := none, attendees := ["a", "b"],
    status := none, visibility := none,
    start := some (TimeField.dateTime (some dtA)),
    end_ := some (TimeField.dateTime (some dtB)) }

/-- An event whose start key is missing entirely. -/
def evNoStart : RawEvent :=
  { summary := some "Ghost", description := none, attendees := [],
    status := none, visibility := none,
    start := none,
    end_ := some (TimeField.dateTime (some dtB)) }

/-- An event with a valid start but an end record carrying no usable time. -/
def evBadEnd : RawEvent :=
  { summary := some "Open Ended", description := none, attendees := [],
    status := none, visibility := none,
    start := some (TimeField.dateTime (some dtA)),
    end_ := some TimeField.neither }

/-- An event whose end precedes its start by one hour. -/
def evNeg : RawEvent :=
  { summary := some "Backwards", description := none, attendees := [],
    status := none, visibility := none,
    start := some (TimeField.dateTime (some dtB)),
    end_ := some (TimeField.dateTime (some dtA)) }

/-- A ninety-minute meeting at 09:00 with two attendees. -/
def ev90 : RawEvent :=
  { summary := some "Design Review", description := none, attendees := ["a", "b"],
    status := none, visibility := none,
    start := some (TimeField.dateTime (some dtA)),
    end_ := some (TimeField.dateTime (some dtC)) }

/-- A cancelled event. -/
def evCancelled : RawEvent :=
  { summary := some "Cancelled Sync", description := none, attendees := [],
    status := some "cancelled", visibility := none,
    start := some (TimeField.dateTime (some dtA)),
    end_ := some (TimeField.dateTime (some dtB)) }

/-!
Lemmas and claim theorems.
-/

/-- One loop iteration preserves the split of the total time into the
working-hours and after-hours subtotals. -/
lemma process_event_split (cfg : Config) (st : AnalyzeState) (e : RawEvent)
    (h : st.total_meeting_time = st.working_hours_time + st.after_hours_time) :
    (process_event cfg st e).total_meeting_time =
      (process_event cfg st e).working_hours_time +
      (process_event cfg st e).after_hours_time := by
  unfold process_event
  split
  · exact h
  split
  · exact h
  split
  · exact h
  split
  · exact h
  dsimp only
  split <;> omega

/-- The whole event loop preserves the split of the total time. -/
lemma foldl_process_split (cfg : Config) (events : List RawEvent) :
    ∀ st : AnalyzeState,
      st.total_meeting_time = st.working_hours_time + st.after_hours_time →
      (events.foldl (process_event cfg) st).total_meeting_time =
        (events.foldl (process_event cfg) st).working_hours_time +
        (events.foldl (process_event cfg) st).after_hours_time := by
  induction events with
  | nil => intro st h; simpa using h
  | cons e es ih =>
      intro st h
      simp only [List.foldl_cons]
      exact ih _ (process_event_split cfg st e h)

/-- C1: for every configuration and input event sequence, the result of
analyze_week satisfies total_meeting_time = working_hours_time +
after_hours_time exactly (the two subtotal keys are read as zero on the
empty-input branch, where the source omits them). -/
theorem analyze_week_total_split (cfg : Config) (events : List RawEvent)
    (sd ed : String) :
    (analyze_week cfg events sd ed).total_meeting_time =
      (analyze_week cfg events sd ed).working_hours_time.getD 0 +
      (analyze_week cfg events sd ed).after_hours_time.getD 0 := by
  unfold analyze_week
  split
  · rfl
  · dsimp only
    simp only [Option.getD_some]
    exact foldl_process_split cfg events analyze_init rfl

/-- C5: evaluating analyze_week on the empty input sequence.  The call
never faults and all counts, durations and mappings are zero or empty, but
the returned dictionary is not shaped like the non-empty-case result: the
period, working_hours_time, after_hours_time and hourly_distribution keys
are absent (modelled by none) and a stray empty time_usage key is present
instead. -/
theorem analyze_week_empty_shape (cfg : Config) (sd ed : String) :
    analyze_week cfg [] sd ed =
      { period := none, total_events := 0, total_meeting_time := 0,
        working_hours_time := none, after_hours_time := none,
        daily_breakdown := [], category_breakdown := [],
        hourly_distribution := none, time_usage := some (),
        patterns := { busiest_day := none, lightest_day := none,
                      dominant_meeting_type := none },
        insights := [] } := rfl

/-- C6 counterexample: an event whose end precedes its start by one hour
gets duration minus one hour, not zero: the negative difference is not
clamped. -/
theorem calculate_duration_negative_cex :
    calculate_duration evNeg = -3600000000 ∧ calculate_duration evNeg < 0 := by
  refine ⟨rfl, ?_⟩
  decide

/-- C6 (amended): the computed duration is end minus start whenever both
times resolve — including a negative difference, returned as-is — and zero
whenever either time is missing or unparseable. -/
theorem calculate_duration_matches_spec (event : RawEvent) :
    calculate_duration event = durationSpec event := by
  obtain ⟨sum, desc, att, stat, vis, st, en⟩ := event
  dsimp only [calculate_duration, durationSpec]
  cases st with
  | none => cases en <;> rfl
  | some tf1 =>
    cases en with
    | none =>
      dsimp only [Option.bind]
      cases parse_event_time tf1 <;> rfl
    | some tf2 =>
      dsimp only [Option.bind]

/-- C10: for every non-empty input sequence both analyze_week and
summarize_upcoming_week report total_events as the raw input length,
counting cancelled, private-and-excluded, and unparseable events. -/
theorem total_events_raw_length (cfg : Config) (events : List RawEvent)
    (sd ed : String) (h : events ≠ []) :
    (analyze_week cfg events sd ed).total_events = events.length ∧
    (summarize_upcoming_week cfg events sd ed).total_events = events.length := by
  unfold analyze_week summarize_upcoming_week
  rw [if_neg h, if_neg h]
  exact ⟨rfl, rfl⟩

/-- C10 witness: a cancelled event and an event with a missing start are
both counted by total_events although neither reaches any aggregate. -/
theorem total_events_raw_length_witness :
    (analyze_week cfgD [evCancelled, evNoStart] "s" "e").total_events =
      [evCancelled, evNoStart].length ∧
    (summarize_upcoming_week cfgD [evCancelled, evNoStart] "s" "e").total_events =
      [evCancelled, evNoStart].length :=
  total_events_raw_length cfgD [evCancelled, evNoStart] "s" "e" (by simp)

/-- C2: the categorizer returns the first configured category (in declared
order) with any keyword substring match in the lower-cased haystack built
from title and description, and otherwise falls back on the attendee count
in the fixed order greater-than-10 large_meeting, greater-than-3
team_meeting, equal-to-2 small_meeting, otherwise other — so counts of 3, 1
and 0 all yield other, as the first-match-wins find? formulation on the
right-hand side makes explicit. -/
theorem categorize_event_matches_spec (cfg : Config) (event : RawEvent) :
    categorize_event cfg event = categorizeSpec cfg event := by
  unfold categorize_event categorizeSpec
  induction cfg.meeting_keywords with
  | nil => rfl
  | cons r rest ih =>
    obtain ⟨category, keywords⟩ := r
    dsimp only [find_keyword_category]
    by_cases h :
        (keywords.any fun keyword =>
          containsSubstr (text_to_analyze event) keyword) = true
    · rw [if_pos h]
      simp [List.find?_cons, h]
    · have hb :
          (keywords.any fun keyword =>
            containsSubstr (text_to_analyze event) keyword) = false := by
        simpa using h
      rw [if_neg h, ih]
      simp [List.find?_cons, hb]

/-- One upcoming-loop iteration appends exactly the key meeting that the
per-event specification rule produces. -/
lemma process_upcoming_keys (st : UpState) (e : RawEvent) :
    (process_upcoming st e).key_meetings =
      st.key_meetings ++ (keyMeetingOf e).toList := by
  unfold process_upcoming keyMeetingOf
  by_cases hc : e.status = some "cancelled"
  · rw [if_pos hc, if_pos hc]; simp
  rw [if_neg hc, if_neg hc]
  cases hs : e.start with
  | none => simp
  | some tf =>
    cases hp : parse_event_time tf with
    | none => simp [hp]
    | some start_time =>
      simp only [hp]
      by_cases hk : calculate_duration e > hourUs ∨ e.attendees.length > 5
      · rw [if_pos hk, if_pos hk]; simp
      · rw [if_neg hk, if_neg hk]; simp

/-- The upcoming-week loop accumulates exactly the key meetings of the
per-event specification rule, in discovery order. -/
lemma foldl_upcoming_keys (events : List RawEvent) :
    ∀ st : UpState,
      (events.foldl process_upcoming st).key_meetings =
        st.key_meetings ++ events.filterMap keyMeetingOf := by
  induction events with
  | nil => intro st; simp
  | cons e es ih =>
    intro st
    simp only [List.foldl_cons, List.filterMap_cons]
    rw [ih (process_upcoming st e), process_upcoming_keys]
    cases keyMeetingOf e <;> simp

/-- C8: the key-meeting list of the upcoming summary is the discovery-order
list of events flagged by the duration-over-one-hour-or-more-than-five-
attendees rule (reason Long duration whenever the duration condition
holds), truncated to max_upcoming_events entries. -/
theorem key_meetings_spec (cfg : Config) (events : List RawEvent)
    (sd ed : String) :
    (summarize_upcoming_week cfg events sd ed).key_meetings =
      (events.filterMap keyMeetingOf).take cfg.max_upcoming_events := by
  unfold summarize_upcoming_week
  split
  · rename_i h
    simp [h]
  · dsimp only
    rw [foldl_upcoming_keys]
    simp

/-- C7: a processed event's duration is attributed to the working-hours
subtotal exactly when the local hour of its start lies in the half-open
configured interval, and to the after-hours subtotal otherwise; in
particular an event starting exactly at the working-hours start counts as
working hours and one starting exactly at the working-hours end counts as
after hours. -/
theorem working_hours_attribution (cfg : Config) (st : AnalyzeState)
    (e : RawEvent) (tf : TimeField) (start_time : PyDatetime)
    (hcanc : ¬ e.status = some "cancelled")
    (hpriv : ¬ (cfg.include_private_events = false ∧ e.visibility = some "private"))
    (hstart : e.start = some tf)
    (hparse : parse_event_time tf = some start_time) :
    ((cfg.working_hours_start ≤ start_time.hour ∧
        start_time.hour < cfg.working_hours_end) →
      (process_event cfg st e).working_hours_time =
        st.working_hours_time + calculate_duration e ∧
      (process_event cfg st e).after_hours_time = st.after_hours_time) ∧
    (¬ (cfg.working_hours_start ≤ start_time.hour ∧
        start_time.hour < cfg.working_hours_end) →
      (process_event cfg st e).after_hours_time =
        st.after_hours_time + calculate_duration e ∧
      (process_event cfg st e).working_hours_time = st.working_hours_time) ∧
    (start_time.hour = cfg.working_hours_start →
      cfg.working_hours_start < cfg.working_hours_end →
      (process_event cfg st e).working_hours_time =
        st.working_hours_time + calculate_duration e) ∧
    (start_time.hour = cfg.working_hours_end →
      (process_event cfg st e).after_hours_time =
        st.after_hours_time + calculate_duration e) := by
  have hproc :
      (process_event cfg st e).working_hours_time =
        (if is_working_hours cfg start_time then
          st.working_hours_time + calculate_duration e
        else st.working_hours_time) ∧
      (process_event cfg st e).after_hours_time =
        (if is_working_hours cfg start_time then st.after_hours_time
        else st.after_hours_time + calculate_duration e) := by
    unfold process_event
    rw [if_neg hcanc, if_neg hpriv, hstart]
    dsimp only
    rw [hparse]
    exact ⟨rfl, rfl⟩
  obtain ⟨hw, ha⟩ := hproc
  refine ⟨?_, ?_, ?_, ?_⟩
  · intro h
    rw [hw, ha, if_pos, if_pos] <;> simp [is_working_hours, h]
  · intro h
    have hb : is_working_hours cfg start_time = false := by
      simp only [is_working_hours, decide_eq_false_iff_not]
      exact h
    rw [hw, ha, hb]
    simp
  · intro h1 h2
    rw [hw, if_pos]
    simp only [is_working_hours, decide_eq_true_eq]
    exact ⟨by omega, by omega⟩
  · intro h1
    rw [ha, if_neg]
    simp only [is_working_hours, decide_eq_true_eq]
    omega

/-- C7 witness: with working hours 9 to 17, a one-hour event starting at
09:00 exactly is attributed to the working-hours subtotal. -/
theorem working_hours_attribution_witness :
    (process_event cfgD analyze_init evA).working_hours_time =
      analyze_init.working_hours_time + calculate_duration evA ∧
    (process_event cfgD analyze_init evA).after_hours_time =
      analyze_init.after_hours_time :=
  (working_hours_attribution cfgD analyze_init evA
    (TimeField.dateTime (some dtA)) dtA
    (by simp [evA]) (by simp [evA]) rfl rfl).1 (by decide)

/-- C3: the insight list is exactly the concatenation of the five
independent conditional blocks of the specification, emitted in the fixed
order load, balance, dominant category, busiest day, peak hour. -/
theorem generate_insights_blocks (total_events : Nat)
    (daily_stats : List (String × DayStat))
    (category_stats : List (String × CatStat))
    (working_hours_time after_hours_time : Int)
    (hourly_distribution : List (Nat × Nat)) :
    generate_insights total_events daily_stats category_stats
        working_hours_time after_hours_time hourly_distribution =
      insightLoadBlock total_events ++
      insightBalanceBlock working_hours_time after_hours_time ++
      insightCategoryBlock category_stats ++
      insightDayBlock daily_stats ++
      insightHourBlock hourly_distribution := by
  unfold generate_insights insightLoadBlock insightBalanceBlock
    insightCategoryBlock insightDayBlock insightHourBlock
  dsimp only
  repeat' split <;> try simp_all

/-- An event whose start does not resolve to a time is skipped entirely by
the aggregation loop: the caught per-event exception leaves the state
untouched. -/
lemma process_event_bad_start (cfg : Config) (st : AnalyzeState) (e : RawEvent)
    (h : e.start.bind parse_event_time = none) :
    process_event cfg st e = st := by
  unfold process_event
  split
  · rfl
  split
  · rfl
  cases hs : e.start with
  | none => rfl
  | some tf =>
    have hp : parse_event_time tf = none := by
      rw [hs] at h
      simpa [Option.bind] using h
    simp [hp]

/-- C4 counterexample: the claim as stated is false on two points.  An
event with a missing start is still counted by total_events (the claim
says it is dropped from the total event count as well), and an event with
an unparseable end but a valid start is kept in the daily mapping (the
claim says an event with an unparseable time is dropped from all
aggregates). -/
theorem dropped_event_total_count_cex :
    (analyze_week cfgD [evNoStart] "s" "e").total_events = 1 ∧
    (analyze_week cfgD [evBadEnd] "s" "e").daily_breakdown ≠ [] := by
  refine ⟨rfl, ?_⟩
  decide

/-- C4 (amended): an event whose start time is missing or unparseable is
dropped from every aggregate of the result — total and working/after-hours
durations, daily, category and hourly mappings, patterns — while the
remaining events are processed normally; only total_events still counts
it, and the analysis call returns normally. -/
theorem analyze_week_bad_start_dropped (cfg : Config) (e : RawEvent)
    (h : e.start.bind parse_event_time = none)
    (pre post : List RawEvent) (sd ed : String) :
    (analyze_week cfg (pre ++ e :: post) sd ed).total_events =
      pre.length + post.length + 1 ∧
    (analyze_week cfg (pre ++ e :: post) sd ed).total_meeting_time =
      (List.foldl (process_event cfg) analyze_init (pre ++ post)).total_meeting_time ∧
    (analyze_week cfg (pre ++ e :: post) sd ed).working_hours_time =
      some (List.foldl (process_event cfg) analyze_init (pre ++ post)).working_hours_time ∧
    (analyze_week cfg (pre ++ e :: post) sd ed).after_hours_time =
      some (List.foldl (process_event cfg) analyze_init (pre ++ post)).after_hours_time ∧
    (analyze_week cfg (pre ++ e :: post) sd ed).daily_breakdown =
      (List.foldl (process_event cfg) analyze_init (pre ++ post)).daily_stats ∧
    (analyze_week cfg (pre ++ e :: post) sd ed).category_breakdown =
      (List.foldl (process_event cfg) analyze_init (pre ++ post)).category_stats ∧
    (analyze_week cfg (pre ++ e :: post) sd ed).hourly_distribution =
      some (List.foldl (process_event cfg) analyze_init (pre ++ post)).hourly_distribution ∧
    (analyze_week cfg (pre ++ e :: post) sd ed).patterns =
      identify_patterns
        (List.foldl (process_event cfg) analyze_init (pre ++ post)).daily_stats
        (List.foldl (process_event cfg) analyze_init (pre ++ post)).category_stats := by
  have hne : pre ++ e :: post ≠ [] := by simp
  have hfold :
      List.foldl (process_event cfg) analyze_init (pre ++ e :: post) =
        List.foldl (process_event cfg) analyze_init (pre ++ post) := by
    rw [List.foldl_append, List.foldl_append]
    simp only [List.foldl_cons]
    rw [process_event_bad_start cfg _ e h]
  have hlen : (pre ++ e :: post).length = pre.length + post.length + 1 := by
    simp only [List.length_append, List.length_cons]
    omega
  unfold analyze_week
  rw [if_neg hne]
  dsimp only
  rw [hfold, hlen]
  exact ⟨rfl, rfl, rfl, rfl, rfl, rfl, rfl, rfl⟩

/-- C4 witness: a concrete run with one missing-start event followed by one
normal event. -/
theorem analyze_week_bad_start_dropped_witness :
    (analyze_week cfgD ([] ++ evNoStart :: [evA]) "s" "e").total_events =
      ([] : List RawEvent).length + [evA].length + 1 ∧
    (analyze_week cfgD ([] ++ evNoStart :: [evA]) "s" "e").daily_breakdown =
      (List.foldl (process_event cfgD) analyze_init ([] ++ [evA])).daily_stats := by
  have h := analyze_week_bad_start_dropped cfgD evNoStart rfl [] [evA] "s" "e"
  exact ⟨h.1, h.2.2.2.2.1⟩

/-- C9 counterexample: the duration field of the agenda entry handed to
ReportSink for a ninety-minute upcoming meeting is the pre-formatted string
1:30:00 — the Python str(timedelta) rendering with microseconds stripped —
not a count of elapsed seconds. -/
theorem agenda_duration_formatted_cex :
    ((summarize_upcoming_week cfgD [ev90] "s" "e").daily_schedule.map
      (fun p => p.2.map (fun i => i.duration))) = [["1:30:00"]] := by
  decide

/-- Membership in an upserted day bucket comes from an existing bucket or
is the appended entry itself. -/
lemma mem_upsert_entries (day : String) (entries : List EventInfo)
    (k : String) (x : EventInfo) (l : List (String × List EventInfo))
    (y : EventInfo)
    (hmem : (day, entries) ∈ upsert k [] (fun v => v ++ [x]) l)
    (hy : y ∈ entries) :
    (∃ entries0, (day, entries0) ∈ l ∧ y ∈ entries0) ∨ y = x := by
  induction l with
  | nil =>
    simp only [upsert, List.mem_singleton, Prod.mk.injEq] at hmem
    obtain ⟨hd, he⟩ := hmem
    subst he
    right
    simpa using hy
  | cons p rest ih =>
    dsimp only [upsert] at hmem
    by_cases hpk : p.1 = k
    · rw [if_pos hpk] at hmem
      rcases List.mem_cons.mp hmem with heq | hmem2
      · obtain ⟨hd, he⟩ := Prod.mk.injEq .. ▸ heq
        subst he
        rcases List.mem_append.mp hy with h1 | h2
        · left
          refine ⟨p.2, ?_, h1⟩
          subst hd
          rw [← hpk]
          exact List.mem_cons_self p rest
        · right
          simpa using h2
      · left
        exact ⟨entries, List.mem_cons_of_mem _ hmem2, hy⟩
    · rw [if_neg hpk] at hmem
      rcases List.mem_cons.mp hmem with heq | hmem2
      · left
        exact ⟨entries, List.mem_cons.mpr (Or.inl heq), hy⟩
      · rcases ih hmem2 with ⟨e0, he0, hy0⟩ | hx
        · left
          exact ⟨e0, List.mem_cons_of_mem _ he0, hy0⟩
        · right
          exact hx

/-- One upcoming-loop iteration leaves the schedule unchanged or upserts
the entry built for the event. -/
lemma process_upcoming_schedule (st : UpState) (e : RawEvent) :
    (process_upcoming st e).daily_schedule = st.daily_schedule ∨
    ∃ stime : PyDatetime,
      (process_upcoming st e).daily_schedule =
        upsert stime.dayLabel [] (fun l => l ++ [event_info_of e stime])
          st.daily_schedule := by
  unfold process_upcoming
  split
  · left; rfl
  cases hs : e.start with
  | none => left; rfl
  | some tf =>
    cases hp : parse_event_time tf with
    | none => simp [hp]
    | some stime =>
      simp only [hp]
      right
      refine ⟨stime, ?_⟩
      split <;> rfl

/-- Every entry of the schedule built by the upcoming-week loop is either
inherited from the initial state or is the agenda entry of some processed
event. -/
lemma schedule_mem_fold (events : List RawEvent) :
    ∀ (st : UpState) (day : String) (entries : List EventInfo) (y : EventInfo),
      (day, entries) ∈ (events.foldl process_upcoming st).daily_schedule →
      y ∈ entries →
      (∃ entries0, (day, entries0) ∈ st.daily_schedule ∧ y ∈ entries0) ∨
        ∃ e, e ∈ events ∧ ∃ stime, y = event_info_of e stime := by
  induction events with
  | nil =>
    intro st day entries y hmem hy
    left
    exact ⟨entries, hmem, hy⟩
  | cons e es ih =>
    intro st day entries y hmem hy
    simp only [List.foldl_cons] at hmem
    rcases ih (process_upcoming st e) day entries y hmem hy with
      ⟨e0, he0, hy0⟩ | ⟨e1, he1, stime, hinfo⟩
    · rcases process_upcoming_schedule st e with heq | ⟨stime, heq⟩
      · rw [heq] at he0
        left
        exact ⟨e0, he0, hy0⟩
      · rw [heq] at he0
        rcases mem_upsert_entries day e0 _ _ _ y he0 hy0 with ⟨e1, he1, hy1⟩ | hx
        · left
          exact ⟨e1, he1, hy1⟩
        · right
          exact ⟨e, List.mem_cons_self e es, stime, hx⟩
    · right
      exact ⟨e1, List.mem_cons_of_mem _ he1, stime, hinfo⟩

/-- C9 (amended): durations inside the AnalysisResult are numeric duration
values, but every agenda entry of the upcoming summary carries as its
duration field the pre-formatted string rendering of the event's computed
duration (str of the timedelta with microseconds stripped). -/
theorem agenda_duration_formatted_everywhere (cfg : Config)
    (events : List RawEvent) (sd ed : String) (day : String)
    (entries : List EventInfo) (info : EventInfo)
    (hmem : (day, entries) ∈ (summarize_upcoming_week cfg events sd ed).daily_schedule)
    (hinfo : info ∈ entries) :
    ∃ e, e ∈ events ∧ info.duration = formatTimedelta (calculate_duration e) := by
  unfold summarize_upcoming_week at hmem
  by_cases hne : events = []
  · rw [if_pos hne] at hmem
    simp at hmem
  · rw [if_neg hne] at hmem
    dsimp only at hmem
    rcases schedule_mem_fold events _ day entries info hmem hinfo with
      ⟨e0, he0, _⟩ | ⟨e, he, stime, hinfo2⟩
    · simp at he0
    · exact ⟨e, he, by rw [hinfo2]; rfl⟩

/-- C9 witness: the single agenda entry of a ninety-minute meeting indeed
carries the formatted duration string of that event. -/
theorem agenda_duration_formatted_everywhere_witness :
    ∃ e, e ∈ [ev90] ∧
      (event_info_of ev90 dtA).duration = formatTimedelta (calculate_duration e) :=
  agenda_duration_formatted_everywhere cfgD [ev90] "s" "e" "Monday, January 01"
    [event_info_of ev90 dtA] (event_info_of ev90 dtA) (by decide) (by simp)

end CalendarAnalyzer
